import Mathlib

/-!
Verification development for the aws-c-http HTTP/2 stream manager
(src/source/http2_stream_manager.c) and the HPACK codec
(src/include/aws/http/private/hpack.h).

The stream-manager state machine is embedded shallowly: the synced data
protected by the manager's mutex becomes a structure, each C function that
mutates it becomes a Lean function on that structure, and the `while` loops
become fuel-indexed recursions (a `none` result means the loop did not
terminate within the given fuel, for any fuel).  Machine integers (`size_t`)
are `Nat` with explicit reduction modulo 2^64 at the operations where the C
code can wrap.

The HPACK dynamic table and codec are implemented outside this repository
snapshot (hpack.h only declares them), so they are modelled from the
specification; each such definition carries a doc comment saying so.
-/

namespace AwsCHttp

/-! ## size_t arithmetic -/

/-- Number of values of a 64-bit `size_t`. -/
def USIZE : Nat := 2 ^ 64

/-- Wrapping `size_t` addition. -/
def sizeAdd (a b : Nat) : Nat := (a + b) % USIZE

/-- Wrapping `size_t` subtraction (arguments are assumed reduced mod 2^64). -/
def sizeSub (a b : Nat) : Nat := (a % USIZE + (USIZE - b % USIZE)) % USIZE

/-- Apply `n` successive `size_t` decrements (the `count--` in the drain loop). -/
def sizeDecN : Nat → Nat → Nat
  | c, 0 => c
  | c, n + 1 => sizeDecN (sizeSub c 1) n

/-! ## Stream manager: data model (struct aws_http2_stream_manager, src 174-222) -/

/-- enum aws_http2_stream_manager_state_type (src 33-37; the UNINITIALIZED
value only exists before `new` completes and is not modelled). -/
inductive SMState
  | ready
  | shuttingDown
  deriving DecidableEq

/-- struct aws_h2_sm_pending_stream_acquisition (src 45-56).  `id` stands for
the identity of the record (its callback and user_data); `sm_connection` is
the nullable chosen connection (src 49-51). -/
structure PendingAcquisition where
  id : Nat
  sm_connection : Option Nat
  deriving DecidableEq

/-- The lock-protected fields of struct aws_http2_stream_manager::synced_data
(src 184-221).  `pending_acquisitions` is the linked list, front = oldest
(aws_linked_list_push_back appends at the back). -/
structure SyncedData where
  state : SMState
  pending_acquisitions : List PendingAcquisition
  pending_acquisition_count : Nat
  connections_acquiring : Nat
  open_stream_count : Nat
  assume_max_concurrent_stream : Nat
  deriving DecidableEq

/-- struct aws_http2_stream_management_transaction (src 240-249).
`connection_to_release` models the nullable pointer as a Bool. -/
structure Transaction where
  new_connections : Nat
  connection_to_release : Bool
  pending_make_requests : List PendingAcquisition
  should_destroy_manager : Bool
  deriving DecidableEq

/-- s_aws_stream_management_transaction_init (src 279-287): AWS_ZERO_STRUCT. -/
def transactionInit : Transaction :=
  { new_connections := 0
    connection_to_release := false
    pending_make_requests := []
    should_destroy_manager := false }

/-- s_aws_http2_stream_manager_should_destroy_synced (src 264-277). -/
def s_aws_http2_stream_manager_should_destroy_synced (sd : SyncedData) : Bool :=
  if sd.state ≠ SMState.shuttingDown then false
  else if 0 < sd.connections_acquiring ∨ 0 < sd.open_stream_count then false
  else true

/-- The drain loop of s_aws_http2_stream_manager_build_transaction_synced
(src 306-321), expressed on the reversed pending list (the C loop pops from
the BACK of `pending_acquisitions`).  Input: pending list reversed, so the
head is the most recently submitted record.  Output: (remaining records,
still reversed; records moved to the transaction, in pop order).  A record
whose `sm_connection` is NULL is pushed back and the loop breaks (src
312-315); otherwise the record is appended to `work->pending_make_requests`
(src 316-320). -/
def drainRev : List PendingAcquisition → List PendingAcquisition × List PendingAcquisition
  | [] => ([], [])
  | p :: rest =>
    match p.sm_connection with
    | none => (p :: rest, [])
    | some _ =>
      let r := drainRev rest
      (r.1, p :: r.2)

/-- The failing loop of the SHUTTING_DOWN branch (src 334-337): the C loop
`while (!aws_linked_list_empty(pending_acquisitions)) { }` has an empty body
(only TODO comments), so each iteration re-tests the unchanged list.  Fuel
bounds the number of iterations observed; `none` means the loop is still
running after `fuel` iterations — for a non-empty list this holds for every
fuel, i.e. the loop never terminates. -/
def shuttingDownFailLoop : Nat → List PendingAcquisition → Option Unit
  | _, [] => some ()
  | 0, _ :: _ => none
  | f + 1, p :: rest => shuttingDownFailLoop f (p :: rest)

/-- s_aws_http2_stream_manager_build_transaction_synced (src 299-343).
READY branch: drain the pending list from the back, then size new
connections (src 323-329: `count / assume_max_concurrent_stream + 1 -
connections_acquiring`).  SHUTTING_DOWN branch (src 331-342): run the empty
failing loop (which hangs on a non-empty list), then zero the count and
compute should_destroy. -/
def s_aws_http2_stream_manager_build_transaction_synced (fuel : Nat) (sd : SyncedData)
    (work : Transaction) : Option (SyncedData × Transaction) :=
  match sd.state with
  | SMState.ready =>
    let d := drainRev sd.pending_acquisitions.reverse
    let sd2 := { sd with
      pending_acquisitions := d.1.reverse
      pending_acquisition_count := sizeDecN sd.pending_acquisition_count d.2.length }
    let work2 := { work with pending_make_requests := work.pending_make_requests ++ d.2 }
    if sd2.pending_acquisition_count ≠ 0 then
      let num_connections_needed :=
        sizeAdd (sd2.pending_acquisition_count / sd2.assume_max_concurrent_stream) 1
      some (sd2, { work2 with
        new_connections := sizeSub num_connections_needed sd2.connections_acquiring })
    else
      some (sd2, work2)
  | SMState.shuttingDown =>
    match shuttingDownFailLoop fuel sd.pending_acquisitions with
    | none => none
    | some _ =>
      let sd2 := { sd with pending_acquisition_count := 0 }
      some (sd2, { work with
        should_destroy_manager := s_aws_http2_stream_manager_should_destroy_synced sd2 })

/-- s_stream_manager_on_zero_external_ref (src 544-559): set the state to
SHUTTING_DOWN, build the transaction under the lock, then execute it.  The
result is the synced data and transaction when the critical section
terminates (`none`: the build loop hangs and the function never returns).
Note that no user callback is invoked on this path: the SHUTTING_DOWN branch
of the build never fails a pending acquisition (src 334-337 is an empty
loop). -/
def s_stream_manager_on_zero_external_ref (fuel : Nat) (sd : SyncedData) :
    Option (SyncedData × Transaction) :=
  s_aws_http2_stream_manager_build_transaction_synced fuel
    { sd with state := SMState.shuttingDown } transactionInit

/-- aws_http2_stream_manager_acquire_stream (src 639-660): under the lock, a
new pending record is created and pushed to the back of the pending list
(src 652), the count is incremented (src 653), and the transaction is built;
the transaction is executed after unlock. -/
def aws_http2_stream_manager_acquire_stream (fuel : Nat) (sd : SyncedData)
    (record : PendingAcquisition) : Option (SyncedData × Transaction) :=
  s_aws_http2_stream_manager_build_transaction_synced fuel
    { sd with
      pending_acquisitions := sd.pending_acquisitions ++ [record]
      pending_acquisition_count := sizeAdd sd.pending_acquisition_count 1 }
    transactionInit

/-- s_sm_on_connection_acquired (src 345-348): the body is empty (two TODO
comments only).  It mutates no manager state, fails no pending acquisition
and invokes no callback, whatever the error code.  The second component is
the list of (record id, error code) pairs of acquisitions failed with the
connection error: always empty. -/
def s_sm_on_connection_acquired (sd : SyncedData) (_error_code : Nat) :
    SyncedData × List (Nat × Nat) :=
  (sd, [])

/-- The order in which s_aws_http2_stream_manager_execute_transaction
dispatches ready records to connections (src 464-490): it pops the FRONT of
`work->pending_make_requests`, so the dispatch order is exactly the list
order. -/
def executeDispatchOrder (work : Transaction) : List PendingAcquisition :=
  work.pending_make_requests

/-! ## Stream manager: lock/callback traces (claim about the transaction pattern)

Each stream-manager event is rendered as the sequence of lock operations,
user-visible callbacks and downstream calls it performs, in program order,
read off the C functions. -/

/-- An observable action of the stream manager. -/
inductive SMAction
  | lock
  | unlock
  | userCallback
  | downstream
  deriving DecidableEq

/-- s_aws_http2_stream_manager_execute_transaction (src 451-509), call
sequence: release the connection if any (src 457-461,
aws_http_connection_manager_release_connection); one
aws_channel_schedule_task_now per ready record (src 464-490); one
aws_http_connection_manager_acquire_connection per new connection (src
493-496); release the underlying connection manager when destroying (src
501-503).  All of these are downstream calls; none is a lock operation. -/
def executeTransactionTrace (work : Transaction) : List SMAction :=
  (if work.connection_to_release then [SMAction.downstream] else []) ++
  List.replicate work.pending_make_requests.length SMAction.downstream ++
  List.replicate work.new_connections SMAction.downstream ++
  (if work.should_destroy_manager then [SMAction.downstream] else [])

/-- The four events the claim enumerates, with the state they operate on. -/
inductive SMEvent
  | acquireStream (sd : SyncedData) (record : PendingAcquisition)
  | lastRelease (sd : SyncedData)
  | connectionAcquired (error_code : Nat)
  | streamCompleted (has_on_complete : Bool)

/-- The action trace of each stream-manager event, read off the source:
acquire_stream (src 639-660) and the zero-external-ref path (src 544-559)
lock, mutate state and build the transaction (no calls made under the lock:
src 645-657 and 552-557 contain only state mutation), unlock, then execute
the transaction; when the build loop hangs (shutting-down state with
non-empty pending list) the thread never leaves the critical section and no
further action occurs.  s_sm_on_connection_acquired (src 345-348) performs
no action.  s_on_stream_complete (src 384-397) invokes the user's
on_complete callback without ever taking the manager's lock. -/
def smEventTrace (fuel : Nat) : SMEvent → List SMAction
  | SMEvent.acquireStream sd record =>
    SMAction.lock ::
      (match aws_http2_stream_manager_acquire_stream fuel sd record with
       | none => []
       | some (_, work) => SMAction.unlock :: executeTransactionTrace work)
  | SMEvent.lastRelease sd =>
    SMAction.lock ::
      (match s_stream_manager_on_zero_external_ref fuel sd with
       | none => []
       | some (_, work) => SMAction.unlock :: executeTransactionTrace work)
  | SMEvent.connectionAcquired _ => []
  | SMEvent.streamCompleted has_on_complete =>
    if has_on_complete then [SMAction.userCallback] else []

/-- Checks that every user callback and every downstream call in the trace
happens at lock depth zero (`d` is the number of locks currently held). -/
def lockSafe : Nat → List SMAction → Bool
  | _, [] => true
  | d, SMAction.lock :: rest => lockSafe (d + 1) rest
  | d, SMAction.unlock :: rest => lockSafe (d - 1) rest
  | d, SMAction.userCallback :: rest => decide (d = 0) && lockSafe d rest
  | d, SMAction.downstream :: rest => decide (d = 0) && lockSafe d rest

/-! ## Stream manager: shutdown lifecycle

The path to the shutdown-complete callback, read off the source: the last
external release fires s_stream_manager_on_zero_external_ref (src 579-582,
544-559), whose transaction releases the underlying connection manager iff
s_aws_http2_stream_manager_should_destroy_synced held (src 341, 501-503,
540-542); the connection manager invokes
s_stream_manager_on_cm_shutdown_complete exactly once (src 529-538), which
calls s_stream_manager_destroy_final (src 511-527), which invokes the user's
shutdown_complete_callback. -/

/-- The lifecycle state relevant to the shutdown-complete callback.
`pending_empty` records whether the pending-acquisition list is empty (when
it is not, the build loop of the shutting-down branch never terminates, so
the last-release critical section never completes).
`cm_released` : aws_http_connection_manager_release has been called (src 541).
`cm_shutdown_callback_done` : the connection manager has fired its
shutdown-complete callback (it does so exactly once, after being released).
`shutdown_complete_invocations` counts calls of the manager's own
shutdown_complete_callback (src 523-525). -/
structure ShutdownModel where
  state : SMState
  pending_empty : Bool
  connections_acquiring : Nat
  open_stream_count : Nat
  cm_released : Bool
  cm_shutdown_callback_done : Bool
  shutdown_complete_invocations : Nat
  deriving DecidableEq

/-- The two externally triggered events of the shutdown path. -/
inductive ShutdownEvent
  | lastExternalRelease
  | cmShutdownComplete
  deriving DecidableEq

/-- One step of the shutdown lifecycle.  `lastExternalRelease` is enabled
only in READY state (aws_ref_count fires its on-zero callback once) and only
when the critical section terminates (pending list empty; otherwise the
build loop of src 334-337 hangs and no subsequent event can run); it moves
the state to SHUTTING_DOWN (src 554) and releases the connection manager iff
should_destroy held (src 341, 501-503).  `cmShutdownComplete` is enabled
once the connection manager has been released and has not yet fired (the
connection manager fires its shutdown callback exactly once); it invokes the
manager's shutdown_complete_callback (src 529-538, 523-525). -/
def shutdownStep (s : ShutdownModel) : ShutdownEvent → Option ShutdownModel
  | ShutdownEvent.lastExternalRelease =>
    if s.state == SMState.ready && s.pending_empty then
      let s2 := { s with state := SMState.shuttingDown }
      let should := s_aws_http2_stream_manager_should_destroy_synced
        { state := s2.state
          pending_acquisitions := []
          pending_acquisition_count := 0
          connections_acquiring := s2.connections_acquiring
          open_stream_count := s2.open_stream_count
          assume_max_concurrent_stream := 0 }
      some { s2 with cm_released := should }
    else none
  | ShutdownEvent.cmShutdownComplete =>
    if s.cm_released && !s.cm_shutdown_callback_done then
      some { s with
        cm_shutdown_callback_done := true
        shutdown_complete_invocations := s.shutdown_complete_invocations + 1 }
    else none

/-- Run a sequence of shutdown-lifecycle events; `none` if some event fires
when it is not enabled. -/
def shutdownRun : ShutdownModel → List ShutdownEvent → Option ShutdownModel
  | s, [] => some s
  | s, e :: es =>
    match shutdownStep s e with
    | some s2 => shutdownRun s2 es
    | none => none

/-- Invariant of the shutdown lifecycle: the connection manager is only ever
released from SHUTTING_DOWN state with both tracking counters at zero
(should_destroy_synced, src 264-277); the shutdown-complete callback has
fired exactly as many times as the connection manager's own shutdown
callback has (destroy_final is only reached through it, src 529-538); and
the connection manager only fires after having been released. -/
def ShutdownInv (s : ShutdownModel) : Prop :=
  (s.cm_released = true →
    s.state = SMState.shuttingDown ∧ s.connections_acquiring = 0 ∧ s.open_stream_count = 0)
  ∧ s.shutdown_complete_invocations = (if s.cm_shutdown_callback_done then 1 else 0)
  ∧ (s.cm_shutdown_callback_done = true → s.cm_released = true)

/-! ## Stream manager: stream counters -/

/-- The counters involved in stream accounting.  `open_stream_count` is the
manager's synced_data.open_stream_count (src 210-213: documented as "The
number of streams that opened and not completed yet"; no statement in
http2_stream_manager.c ever writes it).  `num_streams_open` is the chosen
connection's atomic sm_connection->num_streams_open (src 41).
`outstanding_on_complete` is specification-side bookkeeping: the number of
streams opened through the manager whose on_complete callback has not yet
been invoked. -/
structure StreamCounters where
  open_stream_count : Nat
  num_streams_open : Nat
  outstanding_on_complete : Nat
  deriving DecidableEq

/-- s_make_request_task, happy path (src 400-448): make_request succeeds,
the acquired callback is invoked, aws_http_stream_activate succeeds, and the
connection's num_streams_open is incremented (src 438).  A stream is now
open and its on_complete callback is pending.  The manager's
synced_data.open_stream_count is not touched (no line of the function, nor
any other line of the file, writes it). -/
def s_make_request_task_happy (s : StreamCounters) : StreamCounters :=
  { s with
    num_streams_open := sizeAdd s.num_streams_open 1
    outstanding_on_complete := s.outstanding_on_complete + 1 }

/-- s_on_stream_complete (src 384-397): decrements the connection's
num_streams_open (src 388) and invokes the user's on_complete callback (src
393-395).  The manager's synced_data.open_stream_count is again not
touched. -/
def s_on_stream_complete_model (s : StreamCounters) : StreamCounters :=
  { s with
    num_streams_open := sizeSub s.num_streams_open 1
    outstanding_on_complete := s.outstanding_on_complete - 1 }

/-! ## Stream manager: external refcount -/

/-- The externally visible refcount state of a stream manager
(aws_ref_count, src 182, 579-582).  `on_zero_fired` records that the
refcount reached zero and s_stream_manager_on_zero_external_ref ran, i.e.
shutdown began. -/
structure RefCounted where
  refcount : Nat
  on_zero_fired : Bool
  deriving DecidableEq

/-- aws_http2_stream_manager_acquire (src 625-629): AWS_PRECONDITION
requires a non-null manager — a null argument violates the contract, which
is rendered as an error; otherwise the refcount is incremented. -/
def aws_http2_stream_manager_acquire : Option RefCounted → Except Unit RefCounted
  | none => Except.error ()
  | some m => Except.ok { m with refcount := m.refcount + 1 }

/-- aws_http2_stream_manager_release (src 631-637): a null manager returns
immediately (no error, no state touched); otherwise the refcount is
decremented, and when it reaches zero the on-zero callback fires and
shutdown begins (src 579-582). -/
def aws_http2_stream_manager_release : Option RefCounted → Option RefCounted
  | none => none
  | some m =>
    if m.refcount = 1 then some { refcount := 0, on_zero_fired := true }
    else some { m with refcount := m.refcount - 1 }

/-- Apply `n` successive acquires on a (non-null) manager. -/
def acquireN : Nat → RefCounted → RefCounted
  | 0, m => m
  | n + 1, m =>
    match aws_http2_stream_manager_acquire (some m) with
    | Except.ok m2 => acquireN n m2
    | Except.error _ => m

/-- Apply `n` successive releases. -/
def releaseN : Nat → Option RefCounted → Option RefCounted
  | 0, m => m
  | n + 1, m => releaseN n (aws_http2_stream_manager_release m)

/-! ## HPACK

The HPACK codec of this repository snapshot consists only of the
declarations in src/include/aws/http/private/hpack.h; the defining C file is
absent from src/.  The definitions below are therefore modelled from the
specification (spec.md sections 3, 4.1-4.4 and 6), keeping the declared
names and data shapes of hpack.h.  Bytes are `Nat` (the functions below only
construct values < 256). -/

/-- Bytes of a string literal (all header names and values used here are
ASCII). -/
def bytesOfString (s : String) : List Nat := s.data.map Char.toNat

/-- struct aws_http_header restricted to its name and value byte sequences
(opaque bytes, spec sec. 3). -/
structure HpackHeader where
  name : List Nat
  value : List Nat
  deriving DecidableEq

/-- Build a header from two ASCII literals. -/
def mkHeader (n v : String) : HpackHeader := ⟨bytesOfString n, bytesOfString v⟩

/-- Modelled from the spec: aws_hpack_get_header_size (declared hpack.h
302-304) — the cost of an entry is `name.len + value.len + 32` octets
(spec sec. 3). -/
def hpackHeaderSize (h : HpackHeader) : Nat := h.name.length + h.value.length + 32

/-- enum aws_http_header_compression: the per-header compression hint
(spec sec. 4.3; UseCache / NoCache / NoCacheNoIndex). -/
inductive HeaderCompression
  | useCache
  | noCache
  | noCacheNoIndex
  deriving DecidableEq

/-! ### Dynamic table (struct aws_hpack_dynamic_table, hpack.h 13-32) -/

/-- The dynamic table: ordered sequence of headers, newest first (the head
is combined index 62), bounded by `max_size` octets (spec sec. 3). -/
structure DynamicTable where
  entries : List HpackHeader
  max_size : Nat
  deriving DecidableEq

/-- Total cost of a list of entries. -/
def dynamicTableCost (es : List HpackHeader) : Nat := (es.map hpackHeaderSize).sum

/-- Modelled from the spec: the eviction loop — while the total cost exceeds
the budget, evict the oldest entry (the last of the newest-first list).  The
fuel is the iteration bound; `es.length` iterations always suffice. -/
def evictLoop : Nat → Nat → List HpackHeader → List HpackHeader
  | 0, _, es => es
  | fuel + 1, budget, es =>
    if dynamicTableCost es ≤ budget then es
    else evictLoop fuel budget es.dropLast

/-- Evict oldest entries until the total cost fits within `budget`. -/
def fitEntries (budget : Nat) (es : List HpackHeader) : List HpackHeader :=
  evictLoop es.length budget es

/-- Modelled from the spec: aws_hpack_dynamic_table_insert_header (declared
hpack.h 180-181; implementation not under src/).  Spec sec. 3: insertion of
a header with cost > max_size empties the table without inserting; insertion
of a header with cost ≤ max_size evicts oldest entries until the new total
fits, then prepends the new entry as the newest. -/
def aws_hpack_dynamic_table_insert_header (t : DynamicTable) (h : HpackHeader) : DynamicTable :=
  if t.max_size < hpackHeaderSize h then { t with entries := [] }
  else { t with entries := h :: fitEntries (t.max_size - hpackHeaderSize h) t.entries }

/-! ### Static table (RFC 7541 Appendix A, spec sec. 3) -/

/-- Modelled from the spec: the fixed 61-entry static table (RFC 7541
Appendix A); combined index of the k-th list element is k+1. -/
def hpackStaticTable : List HpackHeader := [
  mkHeader ":authority" "",
  mkHeader ":method" "GET",
  mkHeader ":method" "POST",
  mkHeader ":path" "/",
  mkHeader ":path" "/index.html",
  mkHeader ":scheme" "http",
  mkHeader ":scheme" "https",
  mkHeader ":status" "200",
  mkHeader ":status" "204",
  mkHeader ":status" "206",
  mkHeader ":status" "304",
  mkHeader ":status" "400",
  mkHeader ":status" "404",
  mkHeader ":status" "500",
  mkHeader "accept-charset" "",
  mkHeader "accept-encoding" "gzip, deflate",
  mkHeader "accept-language" "",
  mkHeader "accept-ranges" "",
  mkHeader "accept" "",
  mkHeader "access-control-allow-origin" "",
  mkHeader "age" "",
  mkHeader "allow" "",
  mkHeader "authorization" "",
  mkHeader "cache-control" "",
  mkHeader "content-disposition" "",
  mkHeader "content-encoding" "",
  mkHeader "content-language" "",
  mkHeader "content-length" "",
  mkHeader "content-location" "",
  mkHeader "content-range" "",
  mkHeader "content-type" "",
  mkHeader "cookie" "",
  mkHeader "date" "",
  mkHeader "etag" "",
  mkHeader "expect" "",
  mkHeader "expires" "",
  mkHeader "from" "",
  mkHeader "host" "",
  mkHeader "if-match" "",
  mkHeader "if-modified-since" "",
  mkHeader "if-none-match" "",
  mkHeader "if-range" "",
  mkHeader "if-unmodified-since" "",
  mkHeader "last-modified" "",
  mkHeader "link" "",
  mkHeader "location" "",
  mkHeader "max-forwards" "",
  mkHeader "proxy-authenticate" "",
  mkHeader "proxy-authorization" "",
  mkHeader "range" "",
  mkHeader "referer" "",
  mkHeader "refresh" "",
  mkHeader "retry-after" "",
  mkHeader "server" "",
  mkHeader "set-cookie" "",
  mkHeader "strict-transport-security" "",
  mkHeader "transfer-encoding" "",
  mkHeader "user-agent" "",
  mkHeader "vary" "",
  mkHeader "via" "",
  mkHeader "www-authenticate" ""]

/-- Index (0-based) of the first element satisfying `p`; lookups return the
smallest matching index (spec sec. 8). -/
def findFirstIdx (p : α → Bool) : List α → Option Nat
  | [] => none
  | x :: xs => if p x then some 0 else (findFirstIdx p xs).map (· + 1)

/-- Modelled from the spec: aws_hpack_static_table_find_name_and_value
(declared hpack.h 158) as a 1-based combined index; `none` for not found. -/
def aws_hpack_static_table_find_name_and_value (h : HpackHeader) : Option Nat :=
  (findFirstIdx (fun e => e == h) hpackStaticTable).map (· + 1)

/-- Modelled from the spec: aws_hpack_static_table_find_name_only (declared
hpack.h 159). -/
def aws_hpack_static_table_find_name_only (name : List Nat) : Option Nat :=
  (findFirstIdx (fun e => e.name == name) hpackStaticTable).map (· + 1)

/-- Modelled from the spec: aws_hpack_dynamic_table_find_name_and_value
(declared hpack.h 183-186), returning the combined index (dynamic indices
begin right after the static table, newest first: head of `entries` is
index 62). -/
def aws_hpack_dynamic_table_find_name_and_value (t : DynamicTable) (h : HpackHeader) :
    Option Nat :=
  (findFirstIdx (fun e => e == h) t.entries).map (· + (hpackStaticTable.length + 1))

/-- Modelled from the spec: aws_hpack_dynamic_table_find_name_only (declared
hpack.h 188). -/
def aws_hpack_dynamic_table_find_name_only (t : DynamicTable) (name : List Nat) :
    Option Nat :=
  (findFirstIdx (fun e => e.name == name) t.entries).map (· + (hpackStaticTable.length + 1))

/-- Modelled from the spec: combined (name, value) lookup — static table
first, then dynamic (spec sec. 4.3 step 1). -/
def findNameAndValue (t : DynamicTable) (h : HpackHeader) : Option Nat :=
  match aws_hpack_static_table_find_name_and_value h with
  | some i => some i
  | none => aws_hpack_dynamic_table_find_name_and_value t h

/-- Modelled from the spec: combined name-only lookup (spec sec. 4.3
step 3). -/
def findNameOnly (t : DynamicTable) (name : List Nat) : Option Nat :=
  match aws_hpack_static_table_find_name_only name with
  | some i => some i
  | none => aws_hpack_dynamic_table_find_name_only t name

/-- Modelled from the spec: aws_hpack_decoder_get_header (declared hpack.h
295-296) — resolve a combined index: 0 is illegal, [1, 61] static, ≥ 62
dynamic (newest first). -/
def tableGet (t : DynamicTable) (i : Nat) : Option HpackHeader :=
  if i = 0 then none
  else if i ≤ hpackStaticTable.length then hpackStaticTable.get? (i - 1)
  else t.entries.get? (i - (hpackStaticTable.length + 1))

/-! ### Integer codec (RFC 7541 sec. 5.1, spec sec. 4.1) -/

/-- Modelled from the spec: the continuation octets of a prefixed integer —
7-bit groups, least significant first, high bit set on all but the last. -/
def encodeIntTail (v : Nat) : List Nat :=
  if h : v < 128 then [v]
  else (v % 128 + 128) :: encodeIntTail (v / 128)
termination_by v
decreasing_by
  exact Nat.div_lt_self (by omega) (by omega)

/-- First octet's prefix-field value: the value itself if it fits, else the
prefix filled with ones. -/
def intFirst (v pfxMax : Nat) : Nat := if v < pfxMax then v else pfxMax

/-- Octets following the first: empty if the value fit the prefix, else the
continuation octets of the remainder. -/
def intTail (v pfxMax : Nat) : List Nat :=
  if v < pfxMax then [] else encodeIntTail (v - pfxMax)

/-- Modelled from the spec: aws_hpack_encode_integer (declared hpack.h 229).
`startingBits` carries the wire-form type bits already shifted into place
(e.g. 128 for an indexed field with prefix 7). -/
def aws_hpack_encode_integer (value pfxBits startingBits : Nat) : List Nat :=
  (startingBits + intFirst value (2 ^ pfxBits - 1)) :: intTail value (2 ^ pfxBits - 1)

/-- Modelled from the spec: the continuation-octet decode loop — accumulate
7-bit groups shifted by `shift`, stopping at the first octet with a clear
high bit; `none` on truncated input. -/
def decodeIntTail : List Nat → Nat → Nat → Option (Nat × List Nat)
  | [], _, _ => none
  | b :: rest, acc, shift =>
    if b < 128 then some (acc + b * 2 ^ shift, rest)
    else decodeIntTail rest (acc + (b - 128) * 2 ^ shift) (shift + 7)

/-- Modelled from the spec: decode the remainder of a prefixed integer given
the prefix-field value `p` of the first octet. -/
def decodeIntAfter (p pfxMax : Nat) (input : List Nat) : Option (Nat × List Nat) :=
  if p < pfxMax then some (p, input)
  else
    match decodeIntTail input 0 0 with
    | some (v, rest) => some (pfxMax + v, rest)
    | none => none

/-! ### String codec (spec sec. 4.2), Huffman mode NEVER

The Huffman encoder/decoder is an external collaborator (spec sec. 1); the
modelled encoder runs in AWS_HPACK_HUFFMAN_NEVER mode and always emits the
raw form (Huffman flag 0).  The decoder handles the raw form; a set Huffman
flag would be delegated to the external Huffman decoder and is rendered as
`none` here (the encoder never produces it). -/

/-- Modelled from the spec: aws_hpack_encode_string (declared hpack.h
234-237) in NEVER mode — one octet with Huffman flag 0 starting a prefix-7
length, then the raw octets. -/
def aws_hpack_encode_string (s : List Nat) : List Nat :=
  aws_hpack_encode_integer s.length 7 0 ++ s

/-- Modelled from the spec: aws_hpack_decode_string (declared hpack.h
288-292), raw form — read the prefix-7 length (high bit of the first octet
is the Huffman flag), then take that many octets. -/
def aws_hpack_decode_string : List Nat → Option (List Nat × List Nat)
  | [] => none
  | b :: rest =>
    if 128 ≤ b then none
    else
      match decodeIntAfter b 127 rest with
      | some (len, r) =>
        if len ≤ r.length then some (r.take len, r.drop len) else none
      | none => none

/-! ### Encoder (spec sec. 4.3) -/

/-- Modelled from the spec: the per-header compression decision of
aws_hpack_encode_header_block (spec sec. 4.3): (1) look up (name, value) in
static then dynamic tables; if found, emit Indexed Header Field (prefix-7,
high bit 1); else dispatch on the hint — UseCache: Literal with Incremental
Indexing (prefix-6, bits 01) with indexed name when the name is found,
otherwise octet 0x40 and a literal name, then insert (name, value) into the
dynamic table; NoCache: Literal without Indexing (prefix-4, bits 0000), no
insert; NoCacheNoIndex: Literal Never Indexed (prefix-4, bits 0001), no
insert.  Returns the emitted octets and the updated dynamic table. -/
def s_encode_header_field (t : DynamicTable) (h : HpackHeader) (c : HeaderCompression) :
    List Nat × DynamicTable :=
  match findNameAndValue t h with
  | some i => (aws_hpack_encode_integer i 7 128, t)
  | none =>
    match c with
    | HeaderCompression.useCache =>
      let octets :=
        match findNameOnly t h.name with
        | some i => aws_hpack_encode_integer i 6 64 ++ aws_hpack_encode_string h.value
        | none =>
          aws_hpack_encode_integer 0 6 64 ++
            aws_hpack_encode_string h.name ++ aws_hpack_encode_string h.value
      (octets, aws_hpack_dynamic_table_insert_header t h)
    | HeaderCompression.noCache =>
      (aws_hpack_encode_integer 0 4 0 ++
        aws_hpack_encode_string h.name ++ aws_hpack_encode_string h.value, t)
    | HeaderCompression.noCacheNoIndex =>
      (aws_hpack_encode_integer 0 4 16 ++
        aws_hpack_encode_string h.name ++ aws_hpack_encode_string h.value, t)

/-- Modelled from the spec: aws_hpack_encode_header_block (declared hpack.h
221-224) — serialize the headers in order, threading the dynamic table.  No
update_max_table_size call is pending, so zero Dynamic Table Size Update
entries are emitted (spec sec. 4.3). -/
def aws_hpack_encode_header_block (t : DynamicTable) :
    List (HpackHeader × HeaderCompression) → List Nat × DynamicTable
  | [] => ([], t)
  | (h, c) :: rest =>
    let e := s_encode_header_field t h c
    let b := aws_hpack_encode_header_block e.2 rest
    (e.1 ++ b.1, b.2)

/-! ### Decoder (spec sec. 4.4) -/

/-- struct aws_hpack_decode_result (hpack.h 39-53), with the per-header
compression hint the decoder reports (spec sec. 3: HeaderField carries a
compression hint). -/
inductive HpackDecodeResult
  | headerField (h : HpackHeader) (c : HeaderCompression)
  | dynamicTableResize (newSize : Nat)
  deriving DecidableEq

/-- Modelled from the spec: the literal sub-states of the decoder (spec
sec. 4.4): read the name-index integer (prefix field of the first octet `b`
after removing the `startingBits` type bits); if zero read a literal name
string, else look the name up at that index; then read the value string; if
"with indexing", insert into the dynamic table. -/
def decodeLiteral (t : DynamicTable) (pfxBits startingBits : Nat) (c : HeaderCompression)
    (withIndexing : Bool) (b : Nat) (input : List Nat) :
    Option (HpackDecodeResult × DynamicTable × List Nat) :=
  match decodeIntAfter (b - startingBits) (2 ^ pfxBits - 1) input with
  | none => none
  | some (nameIdx, r1) =>
    let nameRes : Option (List Nat × List Nat) :=
      if nameIdx = 0 then aws_hpack_decode_string r1
      else
        match tableGet t nameIdx with
        | some e => some (e.name, r1)
        | none => none
    match nameRes with
    | none => none
    | some (name, r2) =>
      match aws_hpack_decode_string r2 with
      | none => none
      | some (value, r3) =>
        let h : HpackHeader := ⟨name, value⟩
        let t2 := if withIndexing then aws_hpack_dynamic_table_insert_header t h else t
        some (HpackDecodeResult.headerField h c, t2, r3)

/-- Modelled from the spec: aws_hpack_decode (declared hpack.h 272-275), one
entry, on full input.  Classification of the first octet (spec sec. 4.4):
1xxxxxxx indexed (prefix-7; resolved through the combined index space, index
0 or out of range is a protocol error, rendered `none`); 01xxxxxx literal
with incremental indexing (prefix-6, hint UseCache); 001xxxxx dynamic table
size update (prefix-5); 0001xxxx literal never indexed (prefix-4, hint
NoCacheNoIndex); 0000xxxx literal without indexing (prefix-4, hint
NoCache).  An indexed field reports the UseCache hint (it was served from a
table). -/
def aws_hpack_decode_entry (t : DynamicTable) :
    List Nat → Option (HpackDecodeResult × DynamicTable × List Nat)
  | [] => none
  | b :: input =>
    if 128 ≤ b then
      match decodeIntAfter (b - 128) 127 input with
      | some (i, r) =>
        match tableGet t i with
        | some h => some (HpackDecodeResult.headerField h HeaderCompression.useCache, t, r)
        | none => none
      | none => none
    else if 64 ≤ b then
      decodeLiteral t 6 64 HeaderCompression.useCache true b input
    else if 32 ≤ b then
      match decodeIntAfter (b - 32) 31 input with
      | some (sz, r) =>
        some (HpackDecodeResult.dynamicTableResize sz,
          { entries := fitEntries sz t.entries, max_size := sz }, r)
      | none => none
    else if 16 ≤ b then
      decodeLiteral t 4 16 HeaderCompression.noCacheNoIndex false b input
    else
      decodeLiteral t 4 0 HeaderCompression.noCache false b input

/-- Modelled from the spec: repeatedly call decode until the cursor is empty
(spec sec. 6).  Structured on fuel (one unit per decoded entry); `none` on a
decode error or fuel exhaustion. -/
def aws_hpack_decode_block : Nat → DynamicTable → List Nat →
    Option (List HpackDecodeResult × DynamicTable)
  | 0, t, input => if input = [] then some ([], t) else none
  | fuel + 1, t, input =>
    if input = [] then some ([], t)
    else
      match aws_hpack_decode_entry t input with
      | none => none
      | some (r, t2, rest) =>
        match aws_hpack_decode_block fuel t2 rest with
        | none => none
        | some (rs, t3) => some (r :: rs, t3)

/-- The entries the decoder is expected to yield for an encoded block: each
header comes back verbatim; its hint comes back verbatim except that a
header found in a table was emitted as an Indexed field and decodes with the
UseCache hint. -/
def expectedDecodedEntries (t : DynamicTable) :
    List (HpackHeader × HeaderCompression) → List HpackDecodeResult
  | [] => []
  | (h, c) :: rest =>
    let c2 := if (findNameAndValue t h).isSome then HeaderCompression.useCache else c
    HpackDecodeResult.headerField h c2 ::
      expectedDecodedEntries (s_encode_header_field t h c).2 rest

/-- The header sequence carried by a list of decode results. -/
def decodedHeaders : List HpackDecodeResult → List HpackHeader
  | [] => []
  | HpackDecodeResult.headerField h _ :: rest => h :: decodedHeaders rest
  | HpackDecodeResult.dynamicTableResize _ :: rest => decodedHeaders rest

/-! # Theorems -/

/-! ## Stream manager: helper lemmas -/

/-- The empty failing loop never terminates on a non-empty list: no fuel
suffices. -/
theorem shuttingDownFailLoop_hangs (fuel : Nat) :
    ∀ (l : List PendingAcquisition), l ≠ [] → shuttingDownFailLoop fuel l = none := by
  induction fuel with
  | zero =>
    intro l hne
    cases l with
    | nil => exact absurd rfl hne
    | cons p rest => rfl
  | succ f ih =>
    intro l hne
    cases l with
    | nil => exact absurd rfl hne
    | cons p rest => exact ih (p :: rest) hne

/-- The shutting-down branch of the build loops forever whenever the pending
list is non-empty: no fuel suffices. -/
theorem build_shuttingDown_hangs (fuel : Nat) (sd : SyncedData) (work : Transaction)
    (hst : sd.state = SMState.shuttingDown) (hne : sd.pending_acquisitions ≠ []) :
    s_aws_http2_stream_manager_build_transaction_synced fuel sd work = none := by
  unfold s_aws_http2_stream_manager_build_transaction_synced
  rw [hst, shuttingDownFailLoop_hangs fuel sd.pending_acquisitions hne]

/-- The drain loop on the reversed pending list moves exactly the maximal
run of connection-chosen records from the newest end, in pop order. -/
theorem drainRev_eq (l : List PendingAcquisition) :
    drainRev l = (l.dropWhile (fun p => p.sm_connection.isSome),
                  l.takeWhile (fun p => p.sm_connection.isSome)) := by
  induction l with
  | nil => rfl
  | cons p rest ih =>
    cases hc : p.sm_connection with
    | none => simp [drainRev, hc, List.dropWhile, List.takeWhile]
    | some c => simp [drainRev, hc, List.dropWhile, List.takeWhile, ih]

/-! ## Stream manager: claim theorems C1, C3, C4, C5, C7 -/

/-- C1.  The claim is wrong about the code (code bug): when the external
refcount reaches zero with a pending acquisition in the list, the manager
does set the state to SHUTTING_DOWN, but the failing loop of
s_aws_http2_stream_manager_build_transaction_synced (src 334-337) has an
empty body — `while (!aws_linked_list_empty(pending_acquisitions)) { }` —
so the build never terminates for any amount of fuel: no pending record is
failed with ManagerShuttingDown, no acquired callback is invoked, the lists
are never emptied and the transaction never terminates.  The code's own TODO
comments (src 336: "move all of them to a list to complete them with
error") document the claimed behaviour as the intent. -/
theorem h2sm_C1_shutdown_with_pending_hangs :
    ∀ fuel : Nat,
      s_stream_manager_on_zero_external_ref fuel
        { state := SMState.ready
          pending_acquisitions := [{ id := 0, sm_connection := none }]
          pending_acquisition_count := 1
          connections_acquiring := 0
          open_stream_count := 0
          assume_max_concurrent_stream := 2 ^ 32 - 1 } = none := by
  intro fuel
  unfold s_stream_manager_on_zero_external_ref
  exact build_shuttingDown_hangs fuel _ _ rfl (by simp)

/-- C3, counterexample.  Two acquisitions with chosen connections, submitted
in the order record 0 then record 1 (record 0 is older, at the front of the
pending list): one build_transaction moves them to the ready list in pop
order — the dispatch order pops the front of `pending_make_requests` — and
the later-submitted record 1 is dispatched at position 0, strictly before
the earlier-submitted record 0 at position 1, contradicting FIFO. -/
theorem h2sm_C3_fifo_counterexample :
    (s_aws_http2_stream_manager_build_transaction_synced 0
        { state := SMState.ready
          pending_acquisitions :=
            [{ id := 0, sm_connection := some 7 }, { id := 1, sm_connection := some 7 }]
          pending_acquisition_count := 2
          connections_acquiring := 0
          open_stream_count := 0
          assume_max_concurrent_stream := 100 } transactionInit).map
        (fun r => executeDispatchOrder r.2)
      = some [{ id := 1, sm_connection := some 7 }, { id := 0, sm_connection := some 7 }]
    ∧ List.indexOf ({ id := 1, sm_connection := some 7 } : PendingAcquisition)
        [({ id := 1, sm_connection := some 7 } : PendingAcquisition),
         { id := 0, sm_connection := some 7 }]
      < List.indexOf ({ id := 0, sm_connection := some 7 } : PendingAcquisition)
        [({ id := 1, sm_connection := some 7 } : PendingAcquisition),
         { id := 0, sm_connection := some 7 }] := by
  constructor
  · rfl
  · decide

/-- C3, amended.  Within one build_transaction on a READY manager, the
records moved to the ready list are the maximal run of connection-chosen
records taken from the NEWEST end of the pending list (the C loop pops the
back, src 306-321), appended to the transaction in pop order; since
execution dispatches `pending_make_requests` front to back, acquisitions are
dispatched in reverse submission (LIFO) order, not FIFO. -/
theorem h2sm_C3_dispatch_is_lifo
    (fuel : Nat) (pend : List PendingAcquisition) (cnt acq opn amcs : Nat)
    (work : Transaction) :
    (s_aws_http2_stream_manager_build_transaction_synced fuel
        { state := SMState.ready
          pending_acquisitions := pend
          pending_acquisition_count := cnt
          connections_acquiring := acq
          open_stream_count := opn
          assume_max_concurrent_stream := amcs } work).map
        (fun r => executeDispatchOrder r.2)
      = some (work.pending_make_requests ++
          pend.reverse.takeWhile (fun p => p.sm_connection.isSome)) := by
  unfold s_aws_http2_stream_manager_build_transaction_synced
  simp only [drainRev_eq, executeDispatchOrder]
  split <;> rfl

/-- C4.  The claim is right and the code is wrong (the spec's own design
note calls the source's formula an off-by-one): the code computes
`pending_acquisition_count / assume_max_concurrent_stream + 1 -
connections_acquiring` (src 325-328), which exceeds the prescribed
⌈pending / assume⌉ − acquiring whenever assume divides pending.  At
pending = 4, assume = 2, acquiring = 0 the code requests 3 connections where
the claim says 2. -/
theorem h2sm_C4_sizing_off_by_one :
    (s_aws_http2_stream_manager_build_transaction_synced 0
        { state := SMState.ready
          pending_acquisitions :=
            [{ id := 0, sm_connection := none }, { id := 1, sm_connection := none },
             { id := 2, sm_connection := none }, { id := 3, sm_connection := none }]
          pending_acquisition_count := 4
          connections_acquiring := 0
          open_stream_count := 0
          assume_max_concurrent_stream := 2 } transactionInit).map
        (fun r => r.2.new_connections) = some 3
    ∧ (4 + 2 - 1) / 2 - 0 = 2
    ∧ (3 : Nat) ≠ 2 := by
  refine ⟨rfl, by norm_num, by norm_num⟩

/-- C5.  The claim is right and the code is wrong: s_sm_on_connection_acquired
(src 345-348) is an empty stub whose body is two TODO comments.  On a
connection-acquired callback with a non-zero error code and one pending
record with one connection acquiring, the code fails zero pending records
(and invokes no callback, touches no state), where the claim requires
min(pending_count, connections_acquiring) = 1 record failed with that
error; on success it neither stores the connection nor rebuilds a
transaction.  The file's own header comment (src 101-102: "Connection
acquired from CM - Finishes the pending stream acquiring on this connection
as much as possible") documents the claimed behaviour as the intent. -/
theorem h2sm_C5_connection_acquired_is_noop :
    (s_sm_on_connection_acquired
        { state := SMState.ready
          pending_acquisitions := [{ id := 0, sm_connection := none }]
          pending_acquisition_count := 1
          connections_acquiring := 1
          open_stream_count := 0
          assume_max_concurrent_stream := 2 ^ 32 - 1 } 1)
      = ({ state := SMState.ready
           pending_acquisitions := [{ id := 0, sm_connection := none }]
           pending_acquisition_count := 1
           connections_acquiring := 1
           open_stream_count := 0
           assume_max_concurrent_stream := 2 ^ 32 - 1 }, [])
    ∧ ([] : List (Nat × Nat)).length ≠ min 1 1 := by
  exact ⟨rfl, by norm_num⟩

/-- C7.  The claim is right and the code is wrong: the manager's
synced_data.open_stream_count (src 210-213, documented as "The number of
streams that opened and not completed yet") is never written anywhere in
http2_stream_manager.c — s_make_request_task only increments the
connection's atomic num_streams_open (src 438) and s_on_stream_complete only
decrements it (src 388).  After one stream is successfully created and
activated and before its completion callback fires, one on_complete is
outstanding but the manager's open_stream_count is still 0. -/
theorem h2sm_C7_open_stream_count_never_updated :
    (s_make_request_task_happy
        { open_stream_count := 0, num_streams_open := 0, outstanding_on_complete := 0 })
      = { open_stream_count := 0, num_streams_open := 1, outstanding_on_complete := 1 }
    ∧ (s_make_request_task_happy
        { open_stream_count := 0, num_streams_open := 0,
          outstanding_on_complete := 0 }).open_stream_count
      ≠ (s_make_request_task_happy
        { open_stream_count := 0, num_streams_open := 0,
          outstanding_on_complete := 0 }).outstanding_on_complete := by
  constructor
  · show (⟨0, sizeAdd 0 1, 0 + 1⟩ : StreamCounters) = ⟨0, 1, 1⟩
    have : sizeAdd 0 1 = 1 := by
      unfold sizeAdd USIZE
      norm_num
    rw [this]
  · intro h
    have h2 : (0 : Nat) = 0 + 1 := h
    omega


/-! ## Stream manager: lock discipline (C2) -/

/-- A trace whose actions are all downstream calls is lock-safe at depth
zero. -/
theorem lockSafe_all_downstream :
    ∀ l : List SMAction, (∀ a ∈ l, a = SMAction.downstream) → lockSafe 0 l = true := by
  intro l
  induction l with
  | nil => intro _; rfl
  | cons a t ih =>
    intro h
    have ha : a = SMAction.downstream := h a (by simp)
    subst ha
    have hstep : lockSafe 0 (SMAction.downstream :: t) = lockSafe 0 t := rfl
    rw [hstep]
    exact ih (fun b hb => h b (by simp [hb]))

/-- Every action of the execute-transaction phase is a downstream call. -/
theorem executeTrace_all_downstream (w : Transaction) :
    ∀ a ∈ executeTransactionTrace w, a = SMAction.downstream := by
  intro a ha
  unfold executeTransactionTrace at ha
  rcases List.mem_append.mp ha with h | h
  · rcases List.mem_append.mp h with h2 | h2
    · rcases List.mem_append.mp h2 with h3 | h3
      · revert h3
        split
        · intro h3; simpa using h3
        · intro h3; simp at h3
      · exact (List.mem_replicate.mp h3).2
    · exact (List.mem_replicate.mp h2).2
  · revert h
    split
    · intro h; simpa using h
    · intro h; simp at h

/-- C2, confirmed.  For every stream-manager event — acquire_stream, last
release, connection acquired, stream completed — every user-visible callback
and every downstream call (connection-manager acquire/release, make_request,
event-loop task scheduling) in the event's action trace occurs at lock depth
zero: the two locking paths perform only state mutation inside the critical
section and do all their calls in the execute-transaction phase after the
unlock, the connection-acquired stub performs no action, and the
stream-completed path invokes on_complete without ever taking the lock. -/
theorem h2sm_C2_no_call_while_lock_held (fuel : Nat) (e : SMEvent) :
    lockSafe 0 (smEventTrace fuel e) = true := by
  cases e with
  | acquireStream sd record =>
    cases hb : aws_http2_stream_manager_acquire_stream fuel sd record with
    | none => simp only [smEventTrace, hb]; rfl
    | some r =>
      obtain ⟨sd2, w⟩ := r
      simp only [smEventTrace, hb]
      show lockSafe 0 (executeTransactionTrace w) = true
      exact lockSafe_all_downstream _ (executeTrace_all_downstream w)
  | lastRelease sd =>
    cases hb : s_stream_manager_on_zero_external_ref fuel sd with
    | none => simp only [smEventTrace, hb]; rfl
    | some r =>
      obtain ⟨sd2, w⟩ := r
      simp only [smEventTrace, hb]
      show lockSafe 0 (executeTransactionTrace w) = true
      exact lockSafe_all_downstream _ (executeTrace_all_downstream w)
  | connectionAcquired ec => rfl
  | streamCompleted b => cases b <;> rfl

/-! ## Stream manager: shutdown lifecycle (C6) -/

/-- One enabled shutdown-lifecycle step preserves the invariant and the
tracking counters. -/
theorem shutdownStep_inv (s s2 : ShutdownModel) (e : ShutdownEvent)
    (h : shutdownStep s e = some s2) (hi : ShutdownInv s) :
    ShutdownInv s2 ∧ s2.connections_acquiring = s.connections_acquiring
      ∧ s2.open_stream_count = s.open_stream_count := by
  obtain ⟨hi1, hi2, hi3⟩ := hi
  cases e with
  | lastExternalRelease =>
    simp only [shutdownStep] at h
    by_cases hcond : (s.state == SMState.ready && s.pending_empty) = true
    · rw [if_pos hcond] at h
      rw [Bool.and_eq_true, beq_iff_eq] at hcond
      have hready : s.state = SMState.ready := hcond.1
      have hrel : s.cm_released = false := by
        cases hcr : s.cm_released
        · rfl
        · have hx := (hi1 hcr).1
          rw [hready] at hx
          cases hx
      have hdone : s.cm_shutdown_callback_done = false := by
        cases hcd : s.cm_shutdown_callback_done
        · rfl
        · have hx := hi3 hcd
          rw [hrel] at hx
          cases hx
      injection h with h
      subst h
      refine ⟨⟨?_, ?_, ?_⟩, rfl, rfl⟩
      · intro hshould
        refine ⟨rfl, ?_⟩
        have hsd : s_aws_http2_stream_manager_should_destroy_synced
            { state := SMState.shuttingDown
              pending_acquisitions := []
              pending_acquisition_count := 0
              connections_acquiring := s.connections_acquiring
              open_stream_count := s.open_stream_count
              assume_max_concurrent_stream := 0 } = true := hshould
        unfold s_aws_http2_stream_manager_should_destroy_synced at hsd
        dsimp only at hsd
        split at hsd
        · cases hsd
        · split at hsd
          · cases hsd
          · rename_i hn1 hn2
            push_neg at hn2
            refine ⟨?_, ?_⟩
            · show s.connections_acquiring = 0
              omega
            · show s.open_stream_count = 0
              omega
      · exact hi2
      · intro hd
        rw [hdone] at hd
        cases hd
    · rw [if_neg hcond] at h
      cases h
  | cmShutdownComplete =>
    simp only [shutdownStep] at h
    by_cases hcond : (s.cm_released && !s.cm_shutdown_callback_done) = true
    · rw [if_pos hcond] at h
      rw [Bool.and_eq_true] at hcond
      have hrel : s.cm_released = true := hcond.1
      have hdone : s.cm_shutdown_callback_done = false := by
        have h2 := hcond.2
        cases hcd : s.cm_shutdown_callback_done
        · rfl
        · rw [hcd] at h2
          cases h2
      injection h with h
      subst h
      refine ⟨⟨fun _ => hi1 hrel, ?_, fun _ => hrel⟩, rfl, rfl⟩
      have hi2z : s.shutdown_complete_invocations = 0 := by
        rw [hdone] at hi2
        simpa using hi2
      show s.shutdown_complete_invocations + 1 = if true = true then 1 else 0
      rw [hi2z, if_pos rfl]
    · rw [if_neg hcond] at h
      cases h

/-- A run of enabled shutdown-lifecycle events preserves the invariant and
the tracking counters. -/
theorem shutdownRun_inv (evs : List ShutdownEvent) :
    ∀ (s s2 : ShutdownModel), ShutdownInv s → shutdownRun s evs = some s2 →
      ShutdownInv s2 ∧ s2.connections_acquiring = s.connections_acquiring
        ∧ s2.open_stream_count = s.open_stream_count := by
  induction evs with
  | nil =>
    intro s s2 hi h
    injection h with h
    subst h
    exact ⟨hi, rfl, rfl⟩
  | cons e es ih =>
    intro s s2 hi h
    unfold shutdownRun at h
    cases hstep : shutdownStep s e with
    | none => rw [hstep] at h; cases h
    | some smid =>
      rw [hstep] at h
      obtain ⟨hiMid, hca, hos⟩ := shutdownStep_inv s smid e hstep hi
      obtain ⟨hiFin, hca2, hos2⟩ := ih smid s2 hiMid h
      exact ⟨hiFin, by rw [hca2, hca], by rw [hos2, hos]⟩

/-- C6, confirmed.  From any initial state in which the connection manager
has not been released and the shutdown-complete callback has not fired, any
run of shutdown-lifecycle events invokes the manager's shutdown-complete
callback at most once, and a run that has invoked it has
connections_acquiring = 0 and open_stream_count = 0 (the counters are
constant along the run, so they were zero when it fired): the callback is
reached only through should_destroy_synced, which requires SHUTTING_DOWN
with both counters zero, and through the connection manager's
shutdown-complete callback, which fires at most once. -/
theorem h2sm_C6_shutdown_complete_exactly_once
    (evs : List ShutdownEvent) (s0 s : ShutdownModel)
    (h1 : s0.cm_released = false) (h2 : s0.cm_shutdown_callback_done = false)
    (h3 : s0.shutdown_complete_invocations = 0)
    (hrun : shutdownRun s0 evs = some s) :
    s.shutdown_complete_invocations ≤ 1
    ∧ (s.shutdown_complete_invocations = 1 →
        s.connections_acquiring = 0 ∧ s.open_stream_count = 0) := by
  have hi0 : ShutdownInv s0 := by
    refine ⟨fun hc => ?_, ?_, fun hc => ?_⟩
    · rw [h1] at hc; cases hc
    · rw [h2, h3]; rfl
    · rw [h2] at hc; cases hc
  obtain ⟨⟨hinv1, hinv2, hinv3⟩, _, _⟩ := shutdownRun_inv evs s0 s hi0 hrun
  constructor
  · rw [hinv2]
    split <;> omega
  · intro hone
    have hdone : s.cm_shutdown_callback_done = true := by
      cases hcd : s.cm_shutdown_callback_done
      · rw [hinv2, hcd] at hone
        simp at hone
      · rfl
    exact (hinv1 (hinv3 hdone)).2

/-- C6, witness.  The canonical complete run — last external release on a
quiescent manager (no pending acquisition, no connection acquiring, no open
stream), then the connection manager's shutdown-complete callback — fires
the manager's shutdown-complete callback exactly once. -/
theorem h2sm_C6_witness :
    shutdownRun
        { state := SMState.ready
          pending_empty := true
          connections_acquiring := 0
          open_stream_count := 0
          cm_released := false
          cm_shutdown_callback_done := false
          shutdown_complete_invocations := 0 }
        [ShutdownEvent.lastExternalRelease, ShutdownEvent.cmShutdownComplete]
      = some
        { state := SMState.shuttingDown
          pending_empty := true
          connections_acquiring := 0
          open_stream_count := 0
          cm_released := true
          cm_shutdown_callback_done := true
          shutdown_complete_invocations := 1 }
    ∧ ({ state := SMState.shuttingDown
         pending_empty := true
         connections_acquiring := 0
         open_stream_count := 0
         cm_released := true
         cm_shutdown_callback_done := true
         shutdown_complete_invocations := 1 } : ShutdownModel).shutdown_complete_invocations
        ≤ 1 := by
  refine ⟨by decide, ?_⟩
  exact (h2sm_C6_shutdown_complete_exactly_once
    [ShutdownEvent.lastExternalRelease, ShutdownEvent.cmShutdownComplete]
    { state := SMState.ready
      pending_empty := true
      connections_acquiring := 0
      open_stream_count := 0
      cm_released := false
      cm_shutdown_callback_done := false
      shutdown_complete_invocations := 0 }
    { state := SMState.shuttingDown
      pending_empty := true
      connections_acquiring := 0
      open_stream_count := 0
      cm_released := true
      cm_shutdown_callback_done := true
      shutdown_complete_invocations := 1 }
    rfl rfl rfl (by decide)).1

/-! ## Stream manager: external refcount (C10) -/

/-- Applying `n` acquires adds `n` to the refcount and touches nothing else. -/
theorem acquireN_spec :
    ∀ (n : Nat) (m : RefCounted),
      acquireN n m = { refcount := m.refcount + n, on_zero_fired := m.on_zero_fired } := by
  intro n
  induction n with
  | zero => intro m; rfl
  | succ k ih =>
    intro m
    show acquireN k { refcount := m.refcount + 1, on_zero_fired := m.on_zero_fired }
      = ({ refcount := m.refcount + (k + 1), on_zero_fired := m.on_zero_fired } : RefCounted)
    rw [ih { refcount := m.refcount + 1, on_zero_fired := m.on_zero_fired }]
    show ({ refcount := m.refcount + 1 + k, on_zero_fired := m.on_zero_fired } : RefCounted) = _
    rw [show m.refcount + 1 + k = m.refcount + (k + 1) from by omega]

/-- Applying `n` releases from refcount `n + 1` comes back to 1 without ever
reaching zero (the on-zero callback fires only on the 1 → 0 transition). -/
theorem releaseN_balanced :
    ∀ (n : Nat) (b : Bool),
      releaseN n (some { refcount := n + 1, on_zero_fired := b })
        = some { refcount := 1, on_zero_fired := b } := by
  intro n
  induction n with
  | zero => intro b; rfl
  | succ k ih =>
    intro b
    show releaseN k (aws_http2_stream_manager_release
      (some { refcount := k + 1 + 1, on_zero_fired := b })) = _
    have hrel : aws_http2_stream_manager_release
        (some { refcount := k + 1 + 1, on_zero_fired := b })
        = some { refcount := k + 1, on_zero_fired := b } := by
      show (if k + 1 + 1 = 1 then some { refcount := 0, on_zero_fired := true }
        else some { refcount := k + 1 + 1 - 1, on_zero_fired := b } : Option RefCounted)
        = some { refcount := k + 1, on_zero_fired := b }
      rw [if_neg (by omega)]
      rfl
    rw [hrel]
    exact ih b

/-- C10, confirmed.  Releasing a null manager is a no-op that returns
without error and without touching any state; acquiring requires a non-null
manager (the AWS_PRECONDITION, rendered as an error on null); and for every
non-null manager, `n` acquires balanced by `n` releases return the manager
to its original single reference with shutdown (the on-zero callback) never
begun — shutdown begins only at the release that balances the original
reference. -/
theorem h2sm_C10_null_release_noop_and_balance :
    aws_http2_stream_manager_release none = none
    ∧ aws_http2_stream_manager_acquire none = Except.error ()
    ∧ ∀ n : Nat,
        releaseN n (some (acquireN n { refcount := 1, on_zero_fired := false }))
          = some { refcount := 1, on_zero_fired := false } := by
  refine ⟨rfl, rfl, fun n => ?_⟩
  rw [acquireN_spec]
  show releaseN n (some { refcount := 1 + n, on_zero_fired := false }) = _
  rw [show 1 + n = n + 1 from by omega]
  exact releaseN_balanced n false

/-! ## HPACK dynamic table (C8) -/

/-- The eviction loop brings the total cost within the budget whenever the
fuel covers the list length. -/
theorem evictLoop_cost_le :
    ∀ (fuel : Nat) (budget : Nat) (es : List HpackHeader), es.length ≤ fuel →
      dynamicTableCost (evictLoop fuel budget es) ≤ budget := by
  intro fuel
  induction fuel with
  | zero =>
    intro budget es hlen
    have hes : es = [] := List.eq_nil_of_length_eq_zero (by omega)
    subst hes
    show dynamicTableCost [] ≤ budget
    simp [dynamicTableCost]
  | succ f ih =>
    intro budget es hlen
    show dynamicTableCost (if dynamicTableCost es ≤ budget then es
      else evictLoop f budget es.dropLast) ≤ budget
    by_cases hfit : dynamicTableCost es ≤ budget
    · rw [if_pos hfit]
      exact hfit
    · rw [if_neg hfit]
      apply ih
      have hne : es ≠ [] := by
        intro hx
        subst hx
        exact hfit (by simp [dynamicTableCost])
      have : es.length - 1 ≤ f := by
        have : 1 ≤ es.length := by
          cases es with
          | nil => exact absurd rfl hne
          | cons a t => simp
        omega
      simpa [List.length_dropLast] using this

/-- Inserting keeps the total cost within max_size. -/
theorem insert_cost_le (t : DynamicTable) (h : HpackHeader) :
    dynamicTableCost (aws_hpack_dynamic_table_insert_header t h).entries ≤ t.max_size := by
  unfold aws_hpack_dynamic_table_insert_header
  by_cases hbig : t.max_size < hpackHeaderSize h
  · rw [if_pos hbig]
    show dynamicTableCost [] ≤ t.max_size
    simp [dynamicTableCost]
  · rw [if_neg hbig]
    show dynamicTableCost (h :: fitEntries (t.max_size - hpackHeaderSize h) t.entries)
      ≤ t.max_size
    have hfit : dynamicTableCost (fitEntries (t.max_size - hpackHeaderSize h) t.entries)
        ≤ t.max_size - hpackHeaderSize h :=
      evictLoop_cost_le t.entries.length _ t.entries (le_refl _)
    have hcons : dynamicTableCost (h :: fitEntries (t.max_size - hpackHeaderSize h) t.entries)
        = hpackHeaderSize h
          + dynamicTableCost (fitEntries (t.max_size - hpackHeaderSize h) t.entries) := by
      simp [dynamicTableCost]
    rw [hcons]
    omega

/-- Inserting never changes max_size. -/
theorem insert_max_size (t : DynamicTable) (h : HpackHeader) :
    (aws_hpack_dynamic_table_insert_header t h).max_size = t.max_size := by
  unfold aws_hpack_dynamic_table_insert_header
  split <;> rfl

/-- C8, confirmed (spec-modelled: the dynamic-table implementation is not
under src/; hpack.h only declares it, so the table is modelled from the
spec).  Inserting a header whose cost exceeds max_size empties the table
without inserting it; inserting a header whose cost fits evicts oldest
entries until the new total fits and prepends the new entry as the newest;
and for every sequence of inserts the total entry cost
(name.len + value.len + 32 per entry) never exceeds max_size. -/
theorem hpack_C8_dynamic_table_bounded :
    (∀ (t : DynamicTable) (h : HpackHeader), t.max_size < hpackHeaderSize h →
      (aws_hpack_dynamic_table_insert_header t h).entries = [])
    ∧ (∀ (t : DynamicTable) (h : HpackHeader), hpackHeaderSize h ≤ t.max_size →
      (aws_hpack_dynamic_table_insert_header t h).entries
        = h :: fitEntries (t.max_size - hpackHeaderSize h) t.entries)
    ∧ (∀ (t : DynamicTable) (h : HpackHeader),
      dynamicTableCost (aws_hpack_dynamic_table_insert_header t h).entries ≤ t.max_size)
    ∧ (∀ (hs : List HpackHeader) (t : DynamicTable),
      dynamicTableCost t.entries ≤ t.max_size →
      dynamicTableCost (hs.foldl aws_hpack_dynamic_table_insert_header t).entries
        ≤ (hs.foldl aws_hpack_dynamic_table_insert_header t).max_size) := by
  refine ⟨?_, ?_, insert_cost_le, ?_⟩
  · intro t h hbig
    unfold aws_hpack_dynamic_table_insert_header
    rw [if_pos hbig]
  · intro t h hfits
    unfold aws_hpack_dynamic_table_insert_header
    rw [if_neg (by omega)]
  · intro hs
    induction hs with
    | nil => intro t ht; simpa using ht
    | cons h tl ih =>
      intro t ht
      show dynamicTableCost
          ((tl.foldl aws_hpack_dynamic_table_insert_header
            (aws_hpack_dynamic_table_insert_header t h)).entries) ≤ _
      apply ih
      rw [insert_max_size]
      exact insert_cost_le t h

/-- C8, witness.  Three inserts of cost-55 headers into an initially empty
table with max_size 100 (the spec's eviction scenario): the hypothesis holds
at the empty table and the final cost stays within max_size. -/
theorem hpack_C8_witness :
    dynamicTableCost ({ entries := [], max_size := 100 } : DynamicTable).entries ≤ 100
    ∧ dynamicTableCost
        (([mkHeader "custom-key" "custom-header", mkHeader "custom-ke2" "custom-heade2",
           mkHeader "custom-ke3" "custom-heade3"].foldl
          aws_hpack_dynamic_table_insert_header
          { entries := [], max_size := 100 }).entries)
      ≤ ([mkHeader "custom-key" "custom-header", mkHeader "custom-ke2" "custom-heade2",
          mkHeader "custom-ke3" "custom-heade3"].foldl
          aws_hpack_dynamic_table_insert_header
          { entries := [], max_size := 100 }).max_size :=
  ⟨by decide,
   hpack_C8_dynamic_table_bounded.2.2.2
    [mkHeader "custom-key" "custom-header", mkHeader "custom-ke2" "custom-heade2",
     mkHeader "custom-ke3" "custom-heade3"]
    { entries := [], max_size := 100 } (by decide)⟩

/-! ## HPACK integer and string codecs: round-trip lemmas -/

/-- Decoding the continuation octets of an encoded integer accumulates back
the encoded value and leaves the trailing octets untouched. -/
theorem decodeIntTail_encode :
    ∀ (v acc shift : Nat) (rest : List Nat),
      decodeIntTail (encodeIntTail v ++ rest) acc shift = some (acc + v * 2 ^ shift, rest) := by
  intro v
  induction v using encodeIntTail.induct with
  | case1 v h =>
    intro acc shift rest
    rw [encodeIntTail, dif_pos h]
    show decodeIntTail (v :: rest) acc shift = _
    unfold decodeIntTail
    rw [if_pos h]
  | case2 v h ih =>
    intro acc shift rest
    rw [encodeIntTail, dif_neg h]
    show decodeIntTail ((v % 128 + 128) :: (encodeIntTail (v / 128) ++ rest)) acc shift = _
    unfold decodeIntTail
    rw [if_neg (by omega)]
    rw [show v % 128 + 128 - 128 = v % 128 from by omega]
    rw [ih (acc + v % 128 * 2 ^ shift) (shift + 7) rest]
    have key : acc + v % 128 * 2 ^ shift + v / 128 * 2 ^ (shift + 7) = acc + v * 2 ^ shift := by
      have hv : v % 128 + 128 * (v / 128) = v := Nat.mod_add_div v 128
      have hp : (2 : Nat) ^ (shift + 7) = 2 ^ shift * 128 := by
        rw [pow_add]
        norm_num
      rw [hp]
      calc acc + v % 128 * 2 ^ shift + v / 128 * (2 ^ shift * 128)
          = acc + (v % 128 + 128 * (v / 128)) * 2 ^ shift := by ring
        _ = acc + v * 2 ^ shift := by rw [hv]
    rw [key]

/-- The prefix-field value never exceeds the prefix maximum. -/
theorem intFirst_le (v m : Nat) : intFirst v m ≤ m := by
  unfold intFirst
  split <;> omega

/-- Decoding an encoded prefixed integer from its prefix-field value and
following octets returns the value and the trailing octets. -/
theorem decodeIntAfter_encode (v pfxMax : Nat) (rest : List Nat) :
    decodeIntAfter (intFirst v pfxMax) pfxMax (intTail v pfxMax ++ rest) = some (v, rest) := by
  by_cases h : v < pfxMax
  · simp only [intFirst, intTail, if_pos h]
    unfold decodeIntAfter
    rw [if_pos h]
    rw [List.nil_append]
  · simp only [intFirst, intTail, if_neg h]
    unfold decodeIntAfter
    rw [if_neg (lt_irrefl pfxMax)]
    rw [decodeIntTail_encode (v - pfxMax) 0 0 rest]
    show some (pfxMax + (0 + (v - pfxMax) * 2 ^ 0), rest) = some (v, rest)
    rw [show pfxMax + (0 + (v - pfxMax) * 2 ^ 0) = v from by
      simp only [pow_zero, mul_one, Nat.zero_add]
      omega]

/-- Taking the length of the left part of an append returns it. -/
theorem take_append_left (s t : List Nat) : (s ++ t).take s.length = s := by
  induction s with
  | nil => rfl
  | cons a s2 ih => simp [ih]

/-- Dropping the length of the left part of an append returns the right
part. -/
theorem drop_append_left (s t : List Nat) : (s ++ t).drop s.length = t := by
  induction s with
  | nil => rfl
  | cons a s2 ih => simp [ih]

/-- Decoding an encoded (raw) string returns the octets and the trailing
input. -/
theorem decode_string_encode (s rest : List Nat) :
    aws_hpack_decode_string (aws_hpack_encode_string s ++ rest) = some (s, rest) := by
  unfold aws_hpack_encode_string aws_hpack_encode_integer
  rw [show (2 : Nat) ^ 7 - 1 = 127 from by norm_num]
  show aws_hpack_decode_string
    ((0 + intFirst s.length 127) :: (intTail s.length 127 ++ s ++ rest)) = _
  simp only [aws_hpack_decode_string]
  have hle : intFirst s.length 127 ≤ 127 := intFirst_le _ _
  rw [if_neg (by omega)]
  rw [Nat.zero_add, List.append_assoc, decodeIntAfter_encode s.length 127 (s ++ rest)]
  show (if s.length ≤ (s ++ rest).length
    then some ((s ++ rest).take s.length, (s ++ rest).drop s.length) else none) = _
  rw [if_pos (by simp), take_append_left, drop_append_left]

/-! ## HPACK table lookups: consistency lemmas -/

/-- A successful first-index search returns an in-range index whose element
satisfies the predicate. -/
theorem findFirstIdx_spec {α : Type} (p : α → Bool) :
    ∀ (l : List α) (i : Nat), findFirstIdx p l = some i →
      i < l.length ∧ ∃ x, l.get? i = some x ∧ p x = true := by
  intro l
  induction l with
  | nil => intro i h; cases h
  | cons a t ih =>
    intro i h
    unfold findFirstIdx at h
    by_cases hp : p a
    · rw [if_pos hp] at h
      injection h with h
      subst h
      exact ⟨by simp, a, rfl, hp⟩
    · rw [if_neg hp] at h
      cases hfind : findFirstIdx p t with
      | none => rw [hfind] at h; cases h
      | some j =>
        rw [hfind] at h
        injection h with h
        subst h
        obtain ⟨hlt, x, hx, hpx⟩ := ih j hfind
        refine ⟨by simp; omega, x, ?_, hpx⟩
        show t.get? j = some x
        exact hx

/-- A successful combined (name, value) lookup returns a positive index that
resolves to exactly the looked-up header. -/
theorem findNameAndValue_get (t : DynamicTable) (h : HpackHeader) (i : Nat)
    (hf : findNameAndValue t h = some i) : 1 ≤ i ∧ tableGet t i = some h := by
  unfold findNameAndValue at hf
  cases hs : aws_hpack_static_table_find_name_and_value h with
  | some j =>
    rw [hs] at hf
    injection hf with hf
    subst hf
    unfold aws_hpack_static_table_find_name_and_value at hs
    cases hfi : findFirstIdx (fun e => e == h) hpackStaticTable with
    | none => rw [hfi] at hs; cases hs
    | some k =>
      rw [hfi] at hs
      have hj : j = k + 1 := by simpa using hs.symm
      subst hj
      obtain ⟨hk, x, hx, hpx⟩ := findFirstIdx_spec _ _ _ hfi
      have hxh : x = h := by simpa using hpx
      subst hxh
      refine ⟨by omega, ?_⟩
      unfold tableGet
      rw [if_neg (by omega), if_pos (by omega), Nat.add_sub_cancel]
      exact hx
  | none =>
    rw [hs] at hf
    unfold aws_hpack_dynamic_table_find_name_and_value at hf
    cases hfi : findFirstIdx (fun e => e == h) t.entries with
    | none => rw [hfi] at hf; cases hf
    | some k =>
      rw [hfi] at hf
      have hj : i = k + (hpackStaticTable.length + 1) := by simpa using hf.symm
      subst hj
      obtain ⟨hk, x, hx, hpx⟩ := findFirstIdx_spec _ _ _ hfi
      have hxh : x = h := by simpa using hpx
      subst hxh
      refine ⟨by omega, ?_⟩
      unfold tableGet
      rw [if_neg (by omega), if_neg (by omega),
        show k + (hpackStaticTable.length + 1) - (hpackStaticTable.length + 1) = k
          from by omega]
      exact hx

/-- A successful combined name-only lookup returns a positive index that
resolves to some header carrying exactly the looked-up name. -/
theorem findNameOnly_get (t : DynamicTable) (name : List Nat) (i : Nat)
    (hf : findNameOnly t name = some i) :
    1 ≤ i ∧ ∃ e, tableGet t i = some e ∧ e.name = name := by
  unfold findNameOnly at hf
  cases hs : aws_hpack_static_table_find_name_only name with
  | some j =>
    rw [hs] at hf
    injection hf with hf
    subst hf
    unfold aws_hpack_static_table_find_name_only at hs
    cases hfi : findFirstIdx (fun e => e.name == name) hpackStaticTable with
    | none => rw [hfi] at hs; cases hs
    | some k =>
      rw [hfi] at hs
      have hj : j = k + 1 := by simpa using hs.symm
      subst hj
      obtain ⟨hk, x, hx, hpx⟩ := findFirstIdx_spec _ _ _ hfi
      refine ⟨by omega, x, ?_, by simpa using hpx⟩
      unfold tableGet
      rw [if_neg (by omega), if_pos (by omega), Nat.add_sub_cancel]
      exact hx
  | none =>
    rw [hs] at hf
    unfold aws_hpack_dynamic_table_find_name_only at hf
    cases hfi : findFirstIdx (fun e => e.name == name) t.entries with
    | none => rw [hfi] at hf; cases hf
    | some k =>
      rw [hfi] at hf
      have hj : i = k + (hpackStaticTable.length + 1) := by simpa using hf.symm
      subst hj
      obtain ⟨hk, x, hx, hpx⟩ := findFirstIdx_spec _ _ _ hfi
      refine ⟨by omega, x, ?_, by simpa using hpx⟩
      unfold tableGet
      rw [if_neg (by omega), if_neg (by omega),
        show k + (hpackStaticTable.length + 1) - (hpackStaticTable.length + 1) = k
          from by omega]
      exact hx

/-! ## HPACK entry and block round-trip -/

/-- Decoding a literal whose name index is zero (new-name form) recovers the
header and applies the insert exactly when the wire form carries incremental
indexing. -/
theorem decodeLiteral_encode_newname (t : DynamicTable) (pfxBits startBits : Nat)
    (c : HeaderCompression) (wi : Bool) (h : HpackHeader) (rest : List Nat)
    (hp : 0 < 2 ^ pfxBits - 1) :
    decodeLiteral t pfxBits startBits c wi startBits
      (aws_hpack_encode_string h.name ++ (aws_hpack_encode_string h.value ++ rest))
      = some (HpackDecodeResult.headerField h c,
          if wi then aws_hpack_dynamic_table_insert_header t h else t, rest) := by
  unfold decodeLiteral
  rw [Nat.sub_self]
  unfold decodeIntAfter
  rw [if_pos hp]
  simp only [if_true, decode_string_encode]

/-- Decoding a literal whose name index resolves in the combined tables
recovers the header (the name comes from the table, the value from the
wire). -/
theorem decodeLiteral_encode_idxname (t : DynamicTable) (pfxBits startBits : Nat)
    (c : HeaderCompression) (wi : Bool) (h : HpackHeader) (i : Nat) (rest : List Nat)
    (hfn : findNameOnly t h.name = some i) :
    decodeLiteral t pfxBits startBits c wi (startBits + intFirst i (2 ^ pfxBits - 1))
      (intTail i (2 ^ pfxBits - 1) ++ (aws_hpack_encode_string h.value ++ rest))
      = some (HpackDecodeResult.headerField h c,
          if wi then aws_hpack_dynamic_table_insert_header t h else t, rest) := by
  obtain ⟨hi1, e, hget, hname⟩ := findNameOnly_get t h.name i hfn
  unfold decodeLiteral
  rw [Nat.add_sub_cancel_left]
  rw [decodeIntAfter_encode i (2 ^ pfxBits - 1) (aws_hpack_encode_string h.value ++ rest)]
  show (match (if i = 0 then aws_hpack_decode_string (aws_hpack_encode_string h.value ++ rest)
        else match tableGet t i with
          | some e2 => some (e2.name, aws_hpack_encode_string h.value ++ rest)
          | none => none : Option (List Nat × List Nat)) with
    | none => none
    | some (name, r2) =>
      match aws_hpack_decode_string r2 with
      | none => none
      | some (value, r3) =>
        some (HpackDecodeResult.headerField ⟨name, value⟩ c,
          if wi then aws_hpack_dynamic_table_insert_header t ⟨name, value⟩ else t, r3)) = _
  rw [if_neg (by omega), hget]
  simp only [decode_string_encode]
  rw [hname]

/-- The octets of an encoded header field are never empty (every wire form
begins with a first octet). -/
theorem encode_field_ne_nil (t : DynamicTable) (h : HpackHeader) (c : HeaderCompression) :
    (s_encode_header_field t h c).1 ≠ [] := by
  unfold s_encode_header_field aws_hpack_encode_integer
  cases hf : findNameAndValue t h with
  | some i => simp
  | none =>
    cases c with
    | useCache =>
      cases hfn : findNameOnly t h.name with
      | some i => simp
      | none => simp
    | noCache => simp
    | noCacheNoIndex => simp

/-- Decoding the octets of one encoded header field recovers the header, the
updated table, and the trailing octets; the decoded compression hint is the
encoded one, except that a header found in a table was emitted as an Indexed
field and reports UseCache. -/
theorem decode_entry_encode (t : DynamicTable) (h : HpackHeader) (c : HeaderCompression)
    (rest : List Nat) :
    aws_hpack_decode_entry t ((s_encode_header_field t h c).1 ++ rest)
      = some (HpackDecodeResult.headerField h
          (if (findNameAndValue t h).isSome then HeaderCompression.useCache else c),
        (s_encode_header_field t h c).2, rest) := by
  cases hf : findNameAndValue t h with
  | some i =>
    obtain ⟨hi1, hget⟩ := findNameAndValue_get t h i hf
    have henc : s_encode_header_field t h c = (aws_hpack_encode_integer i 7 128, t) := by
      unfold s_encode_header_field
      rw [hf]
    rw [henc]
    rw [show (if (some i).isSome then HeaderCompression.useCache else c)
      = HeaderCompression.useCache from by simp]
    unfold aws_hpack_encode_integer
    rw [show (2 : Nat) ^ 7 - 1 = 127 from by norm_num]
    show aws_hpack_decode_entry t ((128 + intFirst i 127) :: (intTail i 127 ++ rest)) = _
    simp only [aws_hpack_decode_entry]
    have hle : intFirst i 127 ≤ 127 := intFirst_le _ _
    rw [if_pos (by omega : 128 ≤ 128 + intFirst i 127), Nat.add_sub_cancel_left,
      decodeIntAfter_encode i 127 rest]
    show (match tableGet t i with
      | some h2 => some (HpackDecodeResult.headerField h2 HeaderCompression.useCache, t, rest)
      | none => none) = _
    rw [hget]
  | none =>
    rw [show (if (none : Option Nat).isSome then HeaderCompression.useCache else c) = c
      from by simp]
    cases c with
    | useCache =>
      cases hfn : findNameOnly t h.name with
      | some i =>
        have henc : s_encode_header_field t h HeaderCompression.useCache
            = (aws_hpack_encode_integer i 6 64 ++ aws_hpack_encode_string h.value,
               aws_hpack_dynamic_table_insert_header t h) := by
          unfold s_encode_header_field
          rw [hf, hfn]
        rw [henc]
        obtain ⟨hi1, e, hget, hname⟩ := findNameOnly_get t h.name i hfn
        unfold aws_hpack_encode_integer
        rw [show (2 : Nat) ^ 6 - 1 = 63 from by norm_num]
        have hle : intFirst i 63 ≤ 63 := intFirst_le _ _
        show aws_hpack_decode_entry t
          (((64 + intFirst i 63) :: intTail i 63 ++ aws_hpack_encode_string h.value) ++ rest)
          = _
        rw [List.cons_append, List.cons_append, List.append_assoc]
        show aws_hpack_decode_entry t
          ((64 + intFirst i 63) :: (intTail i 63 ++ (aws_hpack_encode_string h.value ++ rest)))
          = _
        simp only [aws_hpack_decode_entry]
        rw [if_neg (by omega : ¬ 128 ≤ 64 + intFirst i 63),
          if_pos (by omega : 64 ≤ 64 + intFirst i 63)]
        have := decodeLiteral_encode_idxname t 6 64 HeaderCompression.useCache true h i
          rest hfn
        rw [show (2 : Nat) ^ 6 - 1 = 63 from by norm_num] at this
        rw [this]
        rfl
      | none =>
        have henc : s_encode_header_field t h HeaderCompression.useCache
            = (aws_hpack_encode_integer 0 6 64
                ++ aws_hpack_encode_string h.name ++ aws_hpack_encode_string h.value,
               aws_hpack_dynamic_table_insert_header t h) := by
          unfold s_encode_header_field
          rw [hf, hfn]
        rw [henc]
        show aws_hpack_decode_entry t
          ((aws_hpack_encode_integer 0 6 64 ++ aws_hpack_encode_string h.name
            ++ aws_hpack_encode_string h.value) ++ rest) = _
        rw [List.append_assoc, List.append_assoc]
        show aws_hpack_decode_entry t
          (64 :: (aws_hpack_encode_string h.name ++ (aws_hpack_encode_string h.value ++ rest)))
          = _
        simp only [aws_hpack_decode_entry]
        rw [if_neg (by omega : ¬ (128 : Nat) ≤ 64), if_pos (le_refl (64 : Nat))]
        have := decodeLiteral_encode_newname t 6 64 HeaderCompression.useCache true h rest
          (by norm_num)
        rw [this]
        rfl
    | noCache =>
      have henc : s_encode_header_field t h HeaderCompression.noCache
          = (aws_hpack_encode_integer 0 4 0
              ++ aws_hpack_encode_string h.name ++ aws_hpack_encode_string h.value, t) := by
        unfold s_encode_header_field
        rw [hf]
      rw [henc]
      show aws_hpack_decode_entry t
        ((aws_hpack_encode_integer 0 4 0 ++ aws_hpack_encode_string h.name
          ++ aws_hpack_encode_string h.value) ++ rest) = _
      rw [List.append_assoc, List.append_assoc]
      show aws_hpack_decode_entry t
        (0 :: (aws_hpack_encode_string h.name ++ (aws_hpack_encode_string h.value ++ rest)))
        = _
      simp only [aws_hpack_decode_entry]
      rw [if_neg (by omega : ¬ (128 : Nat) ≤ 0), if_neg (by omega : ¬ (64 : Nat) ≤ 0),
        if_neg (by omega : ¬ (32 : Nat) ≤ 0), if_neg (by omega : ¬ (16 : Nat) ≤ 0)]
      have := decodeLiteral_encode_newname t 4 0 HeaderCompression.noCache false h rest
        (by norm_num)
      rw [this]
      rfl
    | noCacheNoIndex =>
      have henc : s_encode_header_field t h HeaderCompression.noCacheNoIndex
          = (aws_hpack_encode_integer 0 4 16
              ++ aws_hpack_encode_string h.name ++ aws_hpack_encode_string h.value, t) := by
        unfold s_encode_header_field
        rw [hf]
      rw [henc]
      show aws_hpack_decode_entry t
        ((aws_hpack_encode_integer 0 4 16 ++ aws_hpack_encode_string h.name
          ++ aws_hpack_encode_string h.value) ++ rest) = _
      rw [List.append_assoc, List.append_assoc]
      show aws_hpack_decode_entry t
        (16 :: (aws_hpack_encode_string h.name ++ (aws_hpack_encode_string h.value ++ rest)))
        = _
      simp only [aws_hpack_decode_entry]
      rw [if_neg (by omega : ¬ (128 : Nat) ≤ 16), if_neg (by omega : ¬ (64 : Nat) ≤ 16),
        if_neg (by omega : ¬ (32 : Nat) ≤ 16), if_pos (le_refl (16 : Nat))]
      have := decodeLiteral_encode_newname t 4 16 HeaderCompression.noCacheNoIndex false h rest
        (by norm_num)
      rw [this]
      rfl

/-- Decoding an encoded header block (with fuel covering the number of
entries) yields exactly the expected decode results and the same final
dynamic table as the encoder. -/
theorem decode_block_encode :
    ∀ (hs : List (HpackHeader × HeaderCompression)) (t : DynamicTable) (fuel : Nat),
      hs.length ≤ fuel →
      aws_hpack_decode_block fuel t (aws_hpack_encode_header_block t hs).1
        = some (expectedDecodedEntries t hs, (aws_hpack_encode_header_block t hs).2) := by
  intro hs
  induction hs with
  | nil =>
    intro t fuel _
    cases fuel <;> rfl
  | cons hc tl ih =>
    obtain ⟨h, c⟩ := hc
    intro t fuel hf
    cases fuel with
    | zero => simp at hf
    | succ f =>
      have henc : aws_hpack_encode_header_block t ((h, c) :: tl)
          = ((s_encode_header_field t h c).1
              ++ (aws_hpack_encode_header_block (s_encode_header_field t h c).2 tl).1,
             (aws_hpack_encode_header_block (s_encode_header_field t h c).2 tl).2) := rfl
      rw [henc]
      have hne : (s_encode_header_field t h c).1
          ++ (aws_hpack_encode_header_block (s_encode_header_field t h c).2 tl).1 ≠ [] := by
        intro hx
        exact encode_field_ne_nil t h c (List.append_eq_nil.mp hx).1
      show (if (s_encode_header_field t h c).1
          ++ (aws_hpack_encode_header_block (s_encode_header_field t h c).2 tl).1 = []
        then some ([], t)
        else match aws_hpack_decode_entry t ((s_encode_header_field t h c).1
              ++ (aws_hpack_encode_header_block (s_encode_header_field t h c).2 tl).1) with
          | none => none
          | some (r, t2, rest2) =>
            match aws_hpack_decode_block f t2 rest2 with
            | none => none
            | some (rs, t3) => some (r :: rs, t3)) = _
      rw [if_neg hne, decode_entry_encode t h c]
      show (match aws_hpack_decode_block f (s_encode_header_field t h c).2
            (aws_hpack_encode_header_block (s_encode_header_field t h c).2 tl).1 with
        | none => none
        | some (rs, t3) =>
          some (HpackDecodeResult.headerField h
            (if (findNameAndValue t h).isSome then HeaderCompression.useCache else c) :: rs,
            t3)) = _
      rw [ih (s_encode_header_field t h c).2 f (by simpa using Nat.le_of_succ_le_succ hf)]
      rfl

/-- The headers carried by the expected decode results of a block are
exactly the encoded headers, in order. -/
theorem decodedHeaders_expected :
    ∀ (hs : List (HpackHeader × HeaderCompression)) (t : DynamicTable),
      decodedHeaders (expectedDecodedEntries t hs) = hs.map Prod.fst := by
  intro hs
  induction hs with
  | nil => intro t; rfl
  | cons hc tl ih =>
    obtain ⟨h, c⟩ := hc
    intro t
    show h :: decodedHeaders (expectedDecodedEntries (s_encode_header_field t h c).2 tl)
      = h :: tl.map Prod.fst
    rw [ih]

/-! ## HPACK round-trip: claim theorems (C9) -/

/-- C9, counterexample.  The header (":method", "GET") encoded with the
NoCacheNoIndex hint: step 1 of the spec's compression decision finds it in
the static table (index 2) BEFORE the hint is consulted, so the encoder
emits the Indexed Header Field octet 0x82 = 130, and the decoder reports the
UseCache hint for an indexed field — the NoCacheNoIndex hint does not
round-trip for a header present in a table. -/
theorem hpack_C9_neverindex_counterexample :
    (s_encode_header_field { entries := [], max_size := 4096 } (mkHeader ":method" "GET")
        HeaderCompression.noCacheNoIndex).1 = [130]
    ∧ aws_hpack_decode_entry { entries := [], max_size := 4096 } [130]
        = some (HpackDecodeResult.headerField (mkHeader ":method" "GET")
            HeaderCompression.useCache,
          { entries := [], max_size := 4096 }, [])
    ∧ HeaderCompression.useCache ≠ HeaderCompression.noCacheNoIndex := by
  refine ⟨by decide, by decide, by decide⟩

/-- C9, amended.  For every header list and every per-header compression
setting, decoding the octet stream produced by the header-block encoder
yields exactly the header sequence (names and values come back verbatim, in
order, with the encoder's and decoder's dynamic tables in sync), and a
header encoded with the NoCacheNoIndex hint decodes with the NoCacheNoIndex
hint again PROVIDED the header is not present in the static or dynamic
table — a header found in a table is emitted as an Indexed field (spec
sec. 4.3 step 2 precedes the hint dispatch) and decodes with the UseCache
hint. -/
theorem hpack_C9_roundtrip_amended :
    (∀ (hs : List (HpackHeader × HeaderCompression)) (t : DynamicTable) (fuel : Nat),
      hs.length ≤ fuel →
      aws_hpack_decode_block fuel t (aws_hpack_encode_header_block t hs).1
        = some (expectedDecodedEntries t hs, (aws_hpack_encode_header_block t hs).2)
      ∧ decodedHeaders (expectedDecodedEntries t hs) = hs.map Prod.fst)
    ∧ (∀ (t : DynamicTable) (h : HpackHeader) (rest : List Nat),
      findNameAndValue t h = none →
      aws_hpack_decode_entry t
          ((s_encode_header_field t h HeaderCompression.noCacheNoIndex).1 ++ rest)
        = some (HpackDecodeResult.headerField h HeaderCompression.noCacheNoIndex, t, rest)) := by
  constructor
  · intro hs t fuel hf
    exact ⟨decode_block_encode hs t fuel hf, decodedHeaders_expected hs t⟩
  · intro t h rest hf
    have := decode_entry_encode t h HeaderCompression.noCacheNoIndex rest
    rw [hf] at this
    have hsnd : (s_encode_header_field t h HeaderCompression.noCacheNoIndex).2 = t := by
      unfold s_encode_header_field
      rw [hf]
    rw [hsnd] at this
    simpa using this

/-- C9, witness.  One-header block "custom-key: custom-header" with the
NoCacheNoIndex hint against an empty dynamic table: the hypotheses hold
concretely (one entry, fuel 1; the header is in no table) and the block
decodes back to exactly that header with the NoCacheNoIndex hint. -/
theorem hpack_C9_witness :
    ([(mkHeader "custom-key" "custom-header", HeaderCompression.noCacheNoIndex)].length ≤ 1
     ∧ findNameAndValue { entries := [], max_size := 4096 }
         (mkHeader "custom-key" "custom-header") = none)
    ∧ aws_hpack_decode_block 1 { entries := [], max_size := 4096 }
        (aws_hpack_encode_header_block { entries := [], max_size := 4096 }
          [(mkHeader "custom-key" "custom-header", HeaderCompression.noCacheNoIndex)]).1
      = some (expectedDecodedEntries { entries := [], max_size := 4096 }
          [(mkHeader "custom-key" "custom-header", HeaderCompression.noCacheNoIndex)],
        (aws_hpack_encode_header_block { entries := [], max_size := 4096 }
          [(mkHeader "custom-key" "custom-header", HeaderCompression.noCacheNoIndex)]).2)
    ∧ aws_hpack_decode_entry { entries := [], max_size := 4096 }
        ((s_encode_header_field { entries := [], max_size := 4096 }
          (mkHeader "custom-key" "custom-header") HeaderCompression.noCacheNoIndex).1 ++ [])
      = some (HpackDecodeResult.headerField (mkHeader "custom-key" "custom-header")
          HeaderCompression.noCacheNoIndex,
        { entries := [], max_size := 4096 }, []) :=
  ⟨⟨by decide, by decide⟩,
   (hpack_C9_roundtrip_amended.1
     [(mkHeader "custom-key" "custom-header", HeaderCompression.noCacheNoIndex)]
     { entries := [], max_size := 4096 } 1 (by decide)).1,
   hpack_C9_roundtrip_amended.2
     { entries := [], max_size := 4096 } (mkHeader "custom-key" "custom-header") []
     (by decide)⟩

end AwsCHttp
